import Mathlib

/-!
# Verification of the `kv` Bolt backend and the `jsonlog` counters

Shallow embedding of `pkg/kv/boltdb.go` and `pkg/jsonlog/main.go`.

* Go `string` and `[]byte` are byte sequences: `Bytes = List UInt8`.
* The storage engine `github.com/coreos/bbolt` is an external library; the
  definitions prefixed `tx`, `bucket` and `db` model the calls the adapter makes,
  following the library's documented behaviour.  The model covers store files whose
  top-level buckets hold plain key/value pairs (all this adapter ever writes) and
  a file system that does not fail once the file is open.
* A call on a nil `*bolt.Bucket` dereferences a nil pointer; the embedding makes
  this outcome explicit as `Result.panic`.
-/

namespace Kv

/-- Go `string` / `[]byte`: a sequence of bytes. -/
abbrev Bytes := List UInt8

/-- Bytes of an ASCII literal (used to write concrete keys readably). -/
def ascii (s : String) : Bytes := s.data.map fun c => UInt8.ofNat c.toNat

/-- The separator byte `'/'`. -/
def slash : UInt8 := 47

/-- The name `"default"`. -/
def defaultBucket : Bytes := [100, 101, 102, 97, 117, 108, 116]

/-- Go `strings.LastIndex(s, sep)` for a one-byte separator: the index of the last
occurrence of `c` in `s`, or `-1` when there is none. -/
def lastIndex : Bytes → UInt8 → Int
  | [], _ => -1
  | b :: t, c =>
    let r := lastIndex t c
    if r ≥ 0 then r + 1 else if b = c then 0 else -1

/-- Function `parseAddress` of boltdb.go: the pair `(bucket, key)`. -/
def parseAddress (pfx : Bytes) : Bytes × Bytes :=
  let i := lastIndex pfx slash
  if i > 0 then
    (pfx.take i.toNat,
      if i + 1 < (pfx.length : Int) then pfx.drop (i.toNat + 1) else [])
  else
    (defaultBucket, pfx)

/-! ### Reference definition of address parsing, after the specification -/

/-- Scan of positions `n-1, n-2, …, 0` of `key` for the separator: the greatest
position below `n` holding `'/'`, if any. -/
def lastSlashBelow (key : Bytes) : Nat → Option Nat
  | 0 => none
  | n + 1 => if key[n]? = some slash then some n else lastSlashBelow key n

/-- Reference parser written from the specification: find the last `'/'`; at a
position `i > 0` the container is `key[0:i]` and the item `key[i+1:]`; otherwise
the container is `"default"` and the item is the whole key. -/
def parseSpec (key : Bytes) : Bytes × Bytes :=
  match lastSlashBelow key key.length with
  | some i => if i > 0 then (key.take i, key.drop (i + 1)) else (defaultBucket, key)
  | none => (defaultBucket, key)

/-! ### Ordered maps of the engine -/

/-- Byte-wise lexicographic order (`bytes.Compare(a, b) < 0`), the key order of the engine. -/
def bytesLt : Bytes → Bytes → Bool
  | [], [] => false
  | [], _ :: _ => true
  | _ :: _, [] => false
  | a :: s, b :: t => if a < b then true else if b < a then false else bytesLt s t

/-- Lookup of a key in an association list. -/
def kvGet {V : Type} : List (Bytes × V) → Bytes → Option V
  | [], _ => none
  | (k, v) :: t, key => if k = key then some v else kvGet t key

/-- Insert or overwrite a key, keeping the list in key order. -/
def kvPut {V : Type} : List (Bytes × V) → Bytes → V → List (Bytes × V)
  | [], key, val => [(key, val)]
  | (k, v) :: t, key, val =>
    if k = key then (key, val) :: t
    else if bytesLt key k then (key, val) :: (k, v) :: t
    else (k, v) :: kvPut t key val

/-- Overwrite the value of a key that is present; the key structure is untouched. -/
def kvReplace {V : Type} : List (Bytes × V) → Bytes → V → List (Bytes × V)
  | [], _, _ => []
  | (k, v) :: t, key, val =>
    if k = key then (k, val) :: t else (k, v) :: kvReplace t key val

/-- Remove a key. -/
def kvDel {V : Type} : List (Bytes × V) → Bytes → List (Bytes × V)
  | [], _ => []
  | (k, v) :: t, key => if k = key then kvDel t key else (k, v) :: kvDel t key

/-! ### Model of the bbolt engine -/

/-- Errors that the adapter can return. -/
inductive BoltError where
  /-- bbolt `ErrBucketNameRequired`. -/
  | bucketNameRequired
  /-- bbolt `ErrBucketNotFound`. -/
  | bucketNotFound
  /-- bbolt `ErrIncompatibleValue`. -/
  | incompatibleValue
  /-- bbolt `ErrKeyRequired`. -/
  | keyRequired
  /-- bbolt `ErrKeyTooLarge`. -/
  | keyTooLarge
  /-- bbolt `ErrValueTooLarge`. -/
  | valueTooLarge
  /-- The adapter's `errors.New("Key not found")`. -/
  | keyNotFound
  /-- The adapter's `errors.New("filename required to init bolt store")`. -/
  | filenameRequired
  /-- Any failure of `bolt.Open`. -/
  | openFailed
  deriving DecidableEq, Repr

/-- Outcome of a Go call: it returns, or the goroutine panics. -/
inductive Result (α : Type) where
  | ret (a : α) : Result α
  | panic : Result α
  deriving DecidableEq, Repr

/-- Contents of one bucket: item key to value. -/
abbrev Bucket := List (Bytes × Bytes)

/-- Contents of the store file: bucket name to bucket. -/
abbrev DB := List (Bytes × Bucket)

/-- A non-nil `*bolt.Bucket`: the bucket it designates inside the transaction. -/
structure BucketRef where
  name : Bytes
  items : Bucket
  deriving DecidableEq, Repr

/-- bbolt `MaxKeySize`. -/
def MaxKeySize : Nat := 32768

/-- bbolt `MaxValueSize`, `(1 << 31) - 2`. -/
def MaxValueSize : Nat := 2147483646

/-- Engine call `tx.Bucket(name)`: nil (`none`) when no bucket has that name. -/
def txBucket (tx : DB) (name : Bytes) : Option BucketRef :=
  (kvGet tx name).map fun items => { name := name, items := items }

/-- Engine call `tx.CreateBucketIfNotExists(name)`. -/
def txCreateBucketIfNotExists (tx : DB) (name : Bytes) : Except BoltError DB :=
  if name.length = 0 then .error .bucketNameRequired
  else match kvGet tx name with
    | some _ => .ok tx
    | none => .ok (kvPut tx name [])

/-- Engine call `tx.DeleteBucket(name)`.  The cursor seek on a missing name yields a key that
differs from the name, except that it yields nil when the root is empty, which
`bytes.Equal` identifies with the empty name. -/
def txDeleteBucket (tx : DB) (name : Bytes) : Except BoltError DB :=
  match kvGet tx name with
  | some _ => .ok (kvDel tx name)
  | none =>
    if name = [] ∧ tx = [] then .error .incompatibleValue else .error .bucketNotFound

/-- Engine call `tx.ForEach` over the root: the bucket names in key order. -/
def txForEach (tx : DB) : List Bytes := tx.map fun e => e.1

/-- Engine call `(*Bucket).Get(key)`: the value, or nil (`none`) when the key is absent.
A nil receiver panics. -/
def bucketGet (bkt : Option BucketRef) (key : Bytes) : Result (Option Bytes) :=
  match bkt with
  | none => .panic
  | some r => .ret (kvGet r.items key)

/-- Engine call `(*Bucket).Put(key, value)` inside the write transaction `tx`.
A nil receiver panics. -/
def bucketPut (tx : DB) (bkt : Option BucketRef) (key value : Bytes) :
    Result (Except BoltError DB) :=
  match bkt with
  | none => .panic
  | some r =>
    if key.length = 0 then .ret (.error .keyRequired)
    else if key.length > MaxKeySize then .ret (.error .keyTooLarge)
    else if value.length > MaxValueSize then .ret (.error .valueTooLarge)
    else .ret (.ok (kvReplace tx r.name (kvPut r.items key value)))

/-- Engine call `(*Bucket).Delete(key)` inside the write transaction `tx`: removing an absent
key is not an error.  A nil receiver panics. -/
def bucketDelete (tx : DB) (bkt : Option BucketRef) (key : Bytes) :
    Result (Except BoltError DB) :=
  match bkt with
  | none => .panic
  | some r => .ret (.ok (kvReplace tx r.name (kvDel r.items key)))

/-- Engine call `db.Update(fn)`: commit what `fn` leaves when it returns nil, roll back when it
returns an error; a panic in `fn` propagates. -/
def dbUpdate (db : DB) (fn : DB → Result (Except BoltError DB)) :
    Result (DB × Option BoltError) :=
  match fn db with
  | .panic => .panic
  | .ret (.ok tx) => .ret (tx, none)
  | .ret (.error e) => .ret (db, some e)

/-- Engine call `db.View(fn)`: run `fn` on a read-only snapshot; `α` is what `fn` stores in the
variables it captures. -/
def dbView {α : Type} (db : DB) (fn : DB → Result (α × Option BoltError)) :
    Result (α × Option BoltError) :=
  fn db

/-! ### The adapter `Bolt` -/

/-- The receiver of the adapter after `Init`: the open engine and the registry
`buckets map[string]bool`. -/
structure Bolt where
  db : DB
  buckets : List (Bytes × Bool)
  deriving DecidableEq, Repr

namespace Bolt

/-- Method `bucketExists`: is the name a key of the registry. -/
def bucketExists (b : Bolt) (bucket : Bytes) : Bool :=
  (kvGet b.buckets bucket).isSome

/-- Method `CreateBucket`: create the bucket if missing and, on success, record it. -/
def CreateBucket (b : Bolt) (bucket : Bytes) : Result (Bolt × Option BoltError) :=
  match dbUpdate b.db (fun tx => .ret (txCreateBucketIfNotExists tx bucket)) with
  | .panic => .panic
  | .ret (db, none) => .ret ({ db := db, buckets := kvPut b.buckets bucket true }, none)
  | .ret (db, some err) => .ret ({ b with db := db }, some err)

/-- Method `Buckets`: the names of all buckets of the engine, and the error of the view. -/
def Buckets (b : Bolt) : Result (List Bytes × Option BoltError) :=
  dbView b.db fun tx => .ret (txForEach tx, none)

/-- Method `Init`: `openFile` is what `bolt.Open` gives for a path (the contents of the
file, empty when it is created).  The result is the error returned, or the
receiver as `Init` leaves it when it returns nil. -/
def Init (openFile : Bytes → Except BoltError DB) (opts : List Bytes) :
    Result (Except BoltError Bolt) :=
  if opts.length < 1 then .ret (.error .filenameRequired)
  else match openFile (opts.headD []) with
    | .error err => .ret (.error err)
    | .ok db =>
      let b : Bolt := { db := db, buckets := [] }
      match b.CreateBucket defaultBucket with
      | .panic => .panic
      | .ret (b, _) =>
        match b.Buckets with
        | .panic => .panic
        | .ret (bkts, err) =>
          if err ≠ none then
            .ret (.ok (bkts.foldl (fun b bkt => { b with buckets := kvPut b.buckets bkt true }) b))
          else .ret (.ok b)

/-- Method `Get`: the pair `(value, error)`; `none` as value is the nil slice. -/
def Get (b : Bolt) (pfx : Bytes) : Result (Option Bytes × Option BoltError) :=
  let bucket := (parseAddress pfx).1
  let key := (parseAddress pfx).2
  match dbView b.db (fun tx =>
      match bucketGet (txBucket tx bucket) key with
      | .panic => .panic
      | .ret (some v) => .ret (some v, none)
      | .ret none => .ret (none, some .keyNotFound)) with
  | .panic => .panic
  | .ret (_, some err) => .ret (none, some err)
  | .ret (val, none) => .ret (val, none)

/-- Method `Delete`. -/
def Delete (b : Bolt) (pfx : Bytes) : Result (Bolt × Option BoltError) :=
  let bucket := (parseAddress pfx).1
  let key := (parseAddress pfx).2
  match dbUpdate b.db (fun tx => bucketDelete tx (txBucket tx bucket) key) with
  | .panic => .panic
  | .ret (db, err) => .ret ({ b with db := db }, err)

/-- Method `Put`. -/
def Put (b : Bolt) (pfx value : Bytes) : Result (Bolt × Option BoltError) :=
  let bucket := (parseAddress pfx).1
  let key := (parseAddress pfx).2
  let created : Result (Bolt × Option BoltError) :=
    if !b.bucketExists bucket then b.CreateBucket bucket else .ret (b, none)
  match created with
  | .panic => .panic
  | .ret (b, some err) => .ret (b, some err)
  | .ret (b, none) =>
    match dbUpdate b.db (fun tx => bucketPut tx (txBucket tx bucket) key value) with
    | .panic => .panic
    | .ret (db, err) => .ret ({ b with db := db }, err)

/-- Method `DeleteTree`. -/
def DeleteTree (b : Bolt) (pfx : Bytes) : Result (Bolt × Option BoltError) :=
  match dbUpdate b.db (fun tx => .ret (txDeleteBucket tx pfx)) with
  | .panic => .panic
  | .ret (db, err) => .ret ({ b with db := db }, err)

end Bolt

/-- A store file that does not exist yet: `bolt.Open` creates it empty. -/
def newFile : Bytes → Except BoltError DB := fun _ => .ok []

/-- A store file left by an earlier session that created the bucket `"a"`. -/
def oldFile : Bytes → Except BoltError DB := fun _ => .ok [(ascii "a", [])]

/-- The receiver after `Init` on a new file: the bucket `"default"` exists and is
the only name in the registry. -/
def freshStore : Bolt :=
  { db := [(defaultBucket, [])], buckets := [(defaultBucket, true)] }

/-- The receiver after `Init` on a new file, `Put("c/x")` and `DeleteTree("c")`: the
registry still lists `"c"`, which the engine no longer holds. -/
def staleStore : Bolt :=
  { db := [(defaultBucket, [])], buckets := [(ascii "c", true), (defaultBucket, true)] }

/-- The receiver after the first step of `Put` for a non-empty bucket name: unchanged
when the registry knows the name, otherwise the bucket is created if missing and
the name recorded. -/
def ensured (b : Bolt) (bucket : Bytes) : Bolt :=
  if b.bucketExists bucket then b
  else
    { db := match kvGet b.db bucket with
        | some _ => b.db
        | none => kvPut b.db bucket []
      buckets := kvPut b.buckets bucket true }

/-- The states reachable from a successful `Init` by calls of `Put`, `Delete` and
`DeleteTree` that return. -/
inductive Reachable (openFile : Bytes → Except BoltError DB) : Bolt → Prop where
  | init (opts : List Bytes) (b : Bolt) :
      Bolt.Init openFile opts = .ret (.ok b) → Reachable openFile b
  | put (b b1 : Bolt) (key value : Bytes) (err : Option BoltError) :
      Reachable openFile b → b.Put key value = .ret (b1, err) → Reachable openFile b1
  | delete (b b1 : Bolt) (key : Bytes) (err : Option BoltError) :
      Reachable openFile b → b.Delete key = .ret (b1, err) → Reachable openFile b1
  | deleteTree (b b1 : Bolt) (name : Bytes) (err : Option BoltError) :
      Reachable openFile b → b.DeleteTree name = .ret (b1, err) → Reachable openFile b1

end Kv

/-! ### The logger `StdLogger` of `pkg/jsonlog`

The zerolog library is external; an event is modelled by its level and message.
`Fatal` is left out: zerolog ends the process when a fatal event is written. -/

namespace Jsonlog

/-- The zerolog levels that the logger uses. -/
inductive Level where
  | debug
  | info
  | error
  | fatal
  deriving DecidableEq, Repr

/-- Numeric order of the zerolog levels (`DebugLevel = 0`, `InfoLevel = 1`,
`ErrorLevel = 3`, `FatalLevel = 4`). -/
def Level.rank : Level → Nat
  | .debug => 0
  | .info => 1
  | .error => 3
  | .fatal => 4

/-- Read of a `map[string]int`: a missing key reads as `0`. -/
def statGet : List (String × Int) → String → Int
  | [], _ => 0
  | (k, v) :: t, key => if k = key then v else statGet t key

/-- Assignment to a key of a `map[string]int`. -/
def statSet : List (String × Int) → String → Int → List (String × Int)
  | [], key, val => [(key, val)]
  | (k, v) :: t, key, val => if k = key then (k, val) :: t else (k, v) :: statSet t key val

/-- Go `int` addition of one, wrapping at 64 bits. -/
def incInt (x : Int) : Int := (x + 1 + 2 ^ 63) % 2 ^ 64 - 2 ^ 63

/-- The map literal `{"debug": 0, "info": 0, "error": 0, "fatal": 0}`. -/
def zeroStats : List (String × Int) :=
  [("debug", 0), ("info", 0), ("error", 0), ("fatal", 0)]

/-- The logger: zerolog's global level as set by `Init`, the lines that have reached
the writer (level and message of each, as `MockLogWriter.Logs` collects them), and
the `stats` map. -/
structure StdLogger where
  globalLevel : Level
  written : List (Level × String)
  stats : List (String × Int)
  deriving DecidableEq, Repr

namespace StdLogger

/-- Method `Init`: sets the global level from `debug` and zeroes the counters; the writer
starts empty. -/
def Init (_appName : String) (debug _noTimestamp : Bool) : StdLogger :=
  { globalLevel := if debug then .debug else .info, written := [], stats := zeroStats }

/-- A zerolog event of level `lvl` with message `msg`: it is written only when the level
is not below the global level (the logger's own level is the lowest one). -/
def emit (L : StdLogger) (lvl : Level) (msg : String) : StdLogger :=
  if lvl.rank < L.globalLevel.rank then L
  else { L with written := L.written ++ [(lvl, msg)] }

/-- The statement `L.stats[key]++`. -/
def bump (L : StdLogger) (key : String) : StdLogger :=
  { L with stats := statSet L.stats key (incInt (statGet L.stats key)) }

/-- Method `Info`. -/
def Info (L : StdLogger) (msg : String) : StdLogger :=
  bump (emit L .info msg) "info"

/-- Method `Error`. -/
def Error (L : StdLogger) (msg : String) : StdLogger :=
  bump (emit L .error msg) "error"

/-- Method `Debug`. -/
def Debug (L : StdLogger) (msg : String) : StdLogger :=
  bump (emit L .debug msg) "debug"

/-- Method `Flush`. -/
def Flush (L : StdLogger) : StdLogger :=
  { L with stats := zeroStats }

/-- Method `Stats`: the tuple `(debug, info, errors, fatal)`. -/
def Stats (L : StdLogger) : Int × Int × Int × Int :=
  (statGet L.stats "debug", statGet L.stats "info", statGet L.stats "error",
    statGet L.stats "fatal")

/-- Number of lines of a level that have reached the writer. -/
def writtenCount (L : StdLogger) (lvl : Level) : Nat :=
  (L.written.filter fun e => decide (e.1 = lvl)).length

end StdLogger

end Jsonlog

/-! ## Theorems -/

namespace Kv

/-! ### C1: address parsing -/

theorem lastIndex_of_not_mem (s : Bytes) (c : UInt8) (h : c ∉ s) : lastIndex s c = -1 := by
  induction s with
  | nil => rfl
  | cons b t ih =>
    have hb : ¬ b = c := fun e => h (by simp [e])
    have ht : c ∉ t := fun e => h (by simp [e])
    simp [lastIndex, ih ht, hb]

theorem lastIndex_of_last (s : Bytes) (c : UInt8) (i : Nat)
    (hi : s[i]? = some c) (hlast : c ∉ s.drop (i + 1)) : lastIndex s c = (i : Int) := by
  induction s generalizing i with
  | nil => simp at hi
  | cons b t ih =>
    cases i with
    | zero =>
      simp at hi hlast
      simp [lastIndex, lastIndex_of_not_mem t c hlast, hi]
    | succ j =>
      simp at hi hlast
      have := ih j hi hlast
      simp only [lastIndex, this]
      have hj : (0 : Int) ≤ (j : Int) := Int.ofNat_nonneg j
      simp [hj]

theorem lastSlashBelow_some (key : Bytes) (n i : Nat) (h : lastSlashBelow key n = some i) :
    key[i]? = some slash ∧ i < n ∧ ∀ j, i < j → j < n → key[j]? ≠ some slash := by
  induction n with
  | zero => simp [lastSlashBelow] at h
  | succ n ih =>
    unfold lastSlashBelow at h
    split at h
    · rename_i hn
      simp at h
      subst h
      exact ⟨hn, Nat.lt_succ_self _, fun j h1 h2 => absurd h2 (by omega)⟩
    · rename_i hn
      obtain ⟨h1, h2, h3⟩ := ih h
      refine ⟨h1, by omega, fun j hj1 hj2 => ?_⟩
      by_cases hjn : j = n
      · subst hjn; exact hn
      · exact h3 j hj1 (by omega)

theorem lastSlashBelow_none (key : Bytes) (n : Nat) (h : lastSlashBelow key n = none) :
    ∀ j, j < n → key[j]? ≠ some slash := by
  induction n with
  | zero => intro j hj; omega
  | succ n ih =>
    unfold lastSlashBelow at h
    split at h
    · simp at h
    · rename_i hn
      intro j hj
      by_cases hjn : j = n
      · subst hjn; exact hn
      · exact ih h j (by omega)

theorem not_mem_drop_of_none_above (key : Bytes) (c : UInt8) (i : Nat)
    (h : ∀ j, i ≤ j → j < key.length → key[j]? ≠ some c) : c ∉ key.drop i := by
  intro hmem
  obtain ⟨k, hk⟩ := List.mem_iff_getElem?.mp hmem
  rw [List.getElem?_drop] at hk
  have hlt : i + k < key.length := by
    by_contra hge
    rw [List.getElem?_eq_none (by omega)] at hk
    simp at hk
  exact h (i + k) (by omega) hlt hk

/-- C1: `parseAddress` agrees with the reference parser of the specification on every key. -/
theorem parseAddress_eq_parseSpec (key : Bytes) : parseAddress key = parseSpec key := by
  unfold parseSpec
  cases hs : lastSlashBelow key key.length with
  | none =>
    have hno : slash ∉ key := by
      have := not_mem_drop_of_none_above key slash 0
        (fun j _ hj => lastSlashBelow_none key _ hs j hj)
      simpa using this
    simp [parseAddress, lastIndex_of_not_mem key slash hno]
  | some i =>
    obtain ⟨h1, h2, h3⟩ := lastSlashBelow_some key _ i hs
    have hlast : slash ∉ key.drop (i + 1) :=
      not_mem_drop_of_none_above key slash (i + 1) (fun j hj hj2 => h3 j (by omega) hj2)
    have hidx := lastIndex_of_last key slash i h1 hlast
    by_cases hi : 0 < i
    · have hi2 : (0 : Int) < (i : Int) := by exact_mod_cast hi
      simp only [parseAddress, hidx, hi2, hi, if_true, Int.toNat_ofNat]
      by_cases hlen : (i : Int) + 1 < (key.length : Int)
      · simp [hlen]
      · have : key.length ≤ i + 1 := by omega
        simp [hlen, List.drop_eq_nil_of_le this]
    · have hi0 : i = 0 := by omega
      subst hi0
      simp [parseAddress, hidx]

section KvLemmas
variable {V : Type}

theorem kvGet_kvPut_self (m : List (Bytes × V)) (k : Bytes) (v : V) :
    kvGet (kvPut m k v) k = some v := by
  induction m with
  | nil => simp [kvPut, kvGet]
  | cons e t ih =>
    obtain ⟨k0, v0⟩ := e
    simp only [kvPut]
    split
    · simp [kvGet]
    · split
      · simp [kvGet]
      · rename_i h1 _
        simp [kvGet, h1, ih]

theorem kvGet_kvPut_ne (m : List (Bytes × V)) (k n : Bytes) (v : V) (h : n ≠ k) :
    kvGet (kvPut m k v) n = kvGet m n := by
  have hk : ¬ k = n := fun e => h e.symm
  induction m with
  | nil => simp [kvPut, kvGet, hk]
  | cons e t ih =>
    obtain ⟨k0, v0⟩ := e
    simp only [kvPut]
    split
    · rename_i h1
      subst h1
      simp [kvGet, hk]
    · split
      · simp [kvGet, hk]
      · simp only [kvGet, ih]

theorem kvGet_kvReplace_self (m : List (Bytes × V)) (k : Bytes) (v : V) :
    kvGet (kvReplace m k v) k = (kvGet m k).map fun _ => v := by
  induction m with
  | nil => simp [kvReplace, kvGet]
  | cons e t ih =>
    obtain ⟨k0, v0⟩ := e
    by_cases h : k0 = k
    · simp [kvReplace, kvGet, h]
    · simp [kvReplace, kvGet, h, ih]

theorem kvGet_kvReplace_ne (m : List (Bytes × V)) (k n : Bytes) (v : V) (h : n ≠ k) :
    kvGet (kvReplace m k v) n = kvGet m n := by
  have hk : ¬ k = n := fun e => h e.symm
  induction m with
  | nil => simp [kvReplace, kvGet]
  | cons e t ih =>
    obtain ⟨k0, v0⟩ := e
    by_cases h0 : k0 = k
    · subst h0
      simp [kvReplace, kvGet, hk]
    · simp [kvReplace, kvGet, h0, ih]

theorem kvReplace_same (m : List (Bytes × V)) (k : Bytes) (v : V) (h : kvGet m k = some v) :
    kvReplace m k v = m := by
  induction m with
  | nil => rfl
  | cons e t ih =>
    obtain ⟨k0, v0⟩ := e
    by_cases h0 : k0 = k
    · simp [kvGet, h0] at h
      simp [kvReplace, h0, h]
    · simp [kvGet, h0] at h
      simp [kvReplace, h0, ih h]

theorem kvGet_kvDel_self (m : List (Bytes × V)) (k : Bytes) : kvGet (kvDel m k) k = none := by
  induction m with
  | nil => rfl
  | cons e t ih =>
    obtain ⟨k0, v0⟩ := e
    by_cases h0 : k0 = k
    · simp [kvDel, h0, ih]
    · simp [kvDel, h0, kvGet, ih]

theorem kvDel_of_absent (m : List (Bytes × V)) (k : Bytes) (h : kvGet m k = none) :
    kvDel m k = m := by
  induction m with
  | nil => rfl
  | cons e t ih =>
    obtain ⟨k0, v0⟩ := e
    by_cases h0 : k0 = k
    · simp [kvGet, h0] at h
    · simp [kvGet, h0] at h
      simp [kvDel, h0, ih h]

end KvLemmas

theorem lastIndex_lt_length (s : Bytes) (c : UInt8) : lastIndex s c < (s.length : Int) := by
  induction s with
  | nil => simp [lastIndex]
  | cons b t ih =>
    simp only [lastIndex, List.length_cons, Nat.cast_add, Nat.cast_one]
    split
    · omega
    · split <;> omega

theorem parseAddress_fst_ne_nil (key : Bytes) : (parseAddress key).1 ≠ [] := by
  unfold parseAddress
  by_cases h : lastIndex key slash > 0
  · have hlt := lastIndex_lt_length key slash
    simp only [h, if_true]
    intro hnil
    have hlen := congrArg List.length hnil
    simp only [List.length_take, List.length_nil] at hlen
    omega
  · simp [h, defaultBucket]

theorem Bolt.Get_eq (b : Bolt) (key : Bytes) :
    b.Get key =
      match kvGet b.db (parseAddress key).1 with
      | none => .panic
      | some items =>
        match kvGet items (parseAddress key).2 with
        | some v => .ret (some v, none)
        | none => .ret (none, some .keyNotFound) := by
  simp only [Bolt.Get, dbView, txBucket, bucketGet]
  cases kvGet b.db (parseAddress key).1 with
  | none => rfl
  | some items =>
    simp only [Option.map_some']
    cases kvGet items (parseAddress key).2 <;> rfl

theorem created_eq (b : Bolt) (n : Bytes) (hn : n ≠ []) :
    (if (!b.bucketExists n) = true then b.CreateBucket n else .ret (b, none))
      = .ret (ensured b n, none) := by
  have hlen : ¬ n.length = 0 := by
    intro h; exact hn (List.length_eq_zero.mp h)
  unfold ensured
  by_cases h : b.bucketExists n = true
  · simp [h]
  · simp only [h, Bool.not_eq_true] 
    simp only [Bolt.CreateBucket, dbUpdate, txCreateBucketIfNotExists, hlen, if_false]
    cases kvGet b.db n <;> simp

theorem Bolt.Put_eq (b : Bolt) (key value : Bytes) :
    b.Put key value =
      match kvGet (ensured b (parseAddress key).1).db (parseAddress key).1 with
      | none => .panic
      | some items =>
        if (parseAddress key).2.length = 0 then
          .ret (ensured b (parseAddress key).1, some .keyRequired)
        else if (parseAddress key).2.length > MaxKeySize then
          .ret (ensured b (parseAddress key).1, some .keyTooLarge)
        else if value.length > MaxValueSize then
          .ret (ensured b (parseAddress key).1, some .valueTooLarge)
        else
          .ret ({ db := kvReplace (ensured b (parseAddress key).1).db (parseAddress key).1
                          (kvPut items (parseAddress key).2 value)
                  buckets := (ensured b (parseAddress key).1).buckets }, none) := by
  simp only [Bolt.Put, created_eq b _ (parseAddress_fst_ne_nil key), dbUpdate, txBucket,
    bucketPut]
  cases kvGet (ensured b (parseAddress key).1).db (parseAddress key).1 with
  | none => rfl
  | some items =>
    simp only [Option.map_some']
    split_ifs <;> rfl

theorem ensured_db_other (b : Bolt) (n m : Bytes) (h : m ≠ n) :
    kvGet (ensured b n).db m = kvGet b.db m := by
  unfold ensured
  split
  · rfl
  · cases kvGet b.db n with
    | none => exact kvGet_kvPut_ne b.db n m [] h
    | some _ => rfl

theorem ensured_db_present (b : Bolt) (n m : Bytes) (x : Bucket) (h : kvGet b.db m = some x) :
    kvGet (ensured b n).db m = some x := by
  by_cases hm : m = n
  · subst hm
    unfold ensured
    split
    · exact h
    · simp [h]
  · rw [ensured_db_other b n m hm, h]

theorem ensured_db_self (b : Bolt) (n : Bytes)
    (h : b.bucketExists n = true → (kvGet b.db n).isSome = true) :
    (kvGet (ensured b n).db n).isSome = true := by
  unfold ensured
  split
  · rename_i hk
    exact h hk
  · cases hg : kvGet b.db n with
    | none => simp [kvGet_kvPut_self]
    | some _ => simp [hg]

theorem kvGet_kvReplace_isSome {V : Type} (m : List (Bytes × V)) (k n : Bytes) (v : V) :
    (kvGet (kvReplace m k v) n).isSome = (kvGet m n).isSome := by
  by_cases h : n = k
  · subst h
    rw [kvGet_kvReplace_self]
    cases kvGet m n <;> rfl
  · rw [kvGet_kvReplace_ne m k n v h]

/-- The first step of `Put` keeps every name that is not a stale registry entry so. -/
theorem ensured_keeps_fresh (b : Bolt) (n m : Bytes)
    (h : b.bucketExists m = true → (kvGet b.db m).isSome = true) :
    (ensured b n).bucketExists m = true → (kvGet (ensured b n).db m).isSome = true := by
  intro hm
  by_cases hk : b.bucketExists n = true
  · have he : ensured b n = b := by simp [ensured, hk]
    rw [he] at hm ⊢
    exact h hm
  · by_cases hmn : m = n
    · subst hmn
      exact ensured_db_self b m (fun e => absurd e hk)
    · rw [ensured_db_other b n m hmn]
      apply h
      have hb : (ensured b n).buckets = kvPut b.buckets n true := by simp [ensured, hk]
      simp only [Bolt.bucketExists, hb, kvGet_kvPut_ne b.buckets n m true hmn] at hm
      exact hm

/-- A `Put` that returns keeps every name that is not a stale registry entry so. -/
theorem put_keeps_fresh (b b1 : Bolt) (key value n : Bytes) (err : Option BoltError)
    (hput : b.Put key value = .ret (b1, err))
    (h : b.bucketExists n = true → (kvGet b.db n).isSome = true) :
    b1.bucketExists n = true → (kvGet b1.db n).isSome = true := by
  have he := ensured_keeps_fresh b (parseAddress key).1 n h
  rw [Bolt.Put_eq] at hput
  cases hg : kvGet (ensured b (parseAddress key).1).db (parseAddress key).1 with
  | none => simp [hg] at hput
  | some items =>
    simp only [hg] at hput
    split_ifs at hput <;> simp only [Result.ret.injEq, Prod.mk.injEq] at hput
    · rw [← hput.1]; exact he
    · rw [← hput.1]; exact he
    · rw [← hput.1]; exact he
    · rw [← hput.1]
      intro hn
      simp only [kvGet_kvReplace_isSome]
      exact he hn

/-- What `Put` returns when the bucket of the key is not a stale registry entry: the
engine's verdict on the item and the value. -/
theorem put_result (b : Bolt) (key value : Bytes)
    (hown : b.bucketExists (parseAddress key).1 = true →
      (kvGet b.db (parseAddress key).1).isSome = true) :
    ∃ b1, b.Put key value = .ret (b1,
      if (parseAddress key).2.length = 0 then some .keyRequired
      else if (parseAddress key).2.length > MaxKeySize then some .keyTooLarge
      else if value.length > MaxValueSize then some .valueTooLarge
      else none) := by
  have hs := ensured_db_self b (parseAddress key).1 hown
  rw [Bolt.Put_eq]
  cases hg : kvGet (ensured b (parseAddress key).1).db (parseAddress key).1 with
  | none => simp [hg] at hs
  | some items =>
    simp only
    split_ifs <;> exact ⟨_, rfl⟩

/-- After a `Put` that returned nil, `Get` of the same key returns the value. -/
theorem put_nil_get (b b1 : Bolt) (key value : Bytes)
    (hput : b.Put key value = .ret (b1, none)) :
    b1.Get key = .ret (some value, none) := by
  rw [Bolt.Put_eq] at hput
  cases hg : kvGet (ensured b (parseAddress key).1).db (parseAddress key).1 with
  | none => simp [hg] at hput
  | some items =>
    simp only [hg] at hput
    split_ifs at hput <;> simp only [Result.ret.injEq, Prod.mk.injEq] at hput
    · exact absurd hput.2 (by decide)
    · exact absurd hput.2 (by decide)
    · exact absurd hput.2 (by decide)
    · rw [← hput.1, Bolt.Get_eq]
      simp only [kvGet_kvReplace_self, hg, Option.map_some', kvGet_kvPut_self]

/-- A `Put` that returns leaves `Get` on a differently parsed key unchanged, when that
`Get` did not panic before. -/
theorem put_frame (b b1 : Bolt) (k1 value k2 : Bytes) (err : Option BoltError)
    (hput : b.Put k1 value = .ret (b1, err))
    (hne : parseAddress k1 ≠ parseAddress k2)
    (hget : b.Get k2 ≠ .panic) :
    b1.Get k2 = b.Get k2 := by
  rw [Bolt.Get_eq] at hget
  cases hx : kvGet b.db (parseAddress k2).1 with
  | none => simp [hx] at hget
  | some x =>
    have hex := ensured_db_present b (parseAddress k1).1 _ x hx
    have hsame : (ensured b (parseAddress k1).1).Get k2 = b.Get k2 := by
      rw [Bolt.Get_eq, Bolt.Get_eq, hex, hx]
    rw [Bolt.Put_eq] at hput
    cases hg : kvGet (ensured b (parseAddress k1).1).db (parseAddress k1).1 with
    | none => simp [hg] at hput
    | some items =>
      simp only [hg] at hput
      split_ifs at hput <;> simp only [Result.ret.injEq, Prod.mk.injEq] at hput
      · rw [← hput.1]; exact hsame
      · rw [← hput.1]; exact hsame
      · rw [← hput.1]; exact hsame
      · rw [← hput.1, ← hsame, Bolt.Get_eq, Bolt.Get_eq]
        by_cases hb : (parseAddress k2).1 = (parseAddress k1).1
        · have hi : (parseAddress k2).2 ≠ (parseAddress k1).2 := by
            intro e
            exact hne (Prod.ext hb.symm e.symm)
          simp only [hb, kvGet_kvReplace_self, hg, Option.map_some',
            kvGet_kvPut_ne items _ _ value hi]
        · simp only [kvGet_kvReplace_ne _ _ _ _ hb]

theorem drop_length_succ_append (a x : Bytes) (c : UInt8) :
    (a ++ c :: x).drop (a.length + 1) = x := by
  induction a with
  | nil => rfl
  | cons h t ih => simp

theorem parseAddress_join (a x : Bytes) (ha : a ≠ []) (hx : slash ∉ x) :
    parseAddress (a ++ slash :: x) = (a, x) := by
  have hdrop := drop_length_succ_append a x slash
  have hidx : lastIndex (a ++ slash :: x) slash = (a.length : Int) := by
    apply lastIndex_of_last
    · rw [List.getElem?_append_right (le_refl _)]
      simp
    · rw [hdrop]; exact hx
  have hpos : 0 < a.length := List.length_pos.mpr ha
  have hpos2 : (0 : Int) < (a.length : Int) := by exact_mod_cast hpos
  simp only [parseAddress, hidx, hpos2, if_true, Int.toNat_ofNat, hdrop, gt_iff_lt]
  have htake : List.take a.length (a ++ slash :: x) = a := by simp
  rw [htake]
  cases x with
  | nil => simp
  | cons y t =>
    have : (a.length : Int) + 1 < ((a ++ slash :: y :: t).length : Int) := by
      simp only [List.length_append, List.length_cons]
      push_cast
      omega
    simp [this]

theorem Bolt.Delete_eq (b : Bolt) (key : Bytes) :
    b.Delete key =
      match kvGet b.db (parseAddress key).1 with
      | none => .panic
      | some items =>
        .ret ({ db := kvReplace b.db (parseAddress key).1 (kvDel items (parseAddress key).2)
                buckets := b.buckets }, none) := by
  simp only [Bolt.Delete, dbUpdate, txBucket, bucketDelete]
  cases kvGet b.db (parseAddress key).1 <;> rfl

theorem Bolt.DeleteTree_eq (b : Bolt) (name : Bytes) :
    b.DeleteTree name =
      match kvGet b.db name with
      | some _ => .ret ({ db := kvDel b.db name, buckets := b.buckets }, none)
      | none =>
        .ret (b, some (if name = [] ∧ b.db = [] then .incompatibleValue else .bucketNotFound)) := by
  simp only [Bolt.DeleteTree, dbUpdate, txDeleteBucket]
  cases kvGet b.db name with
  | some _ => rfl
  | none => 
    simp only
    split_ifs <;> rfl

/-- On a key whose bucket does not exist, `Get` and `Delete` panic. -/
theorem missing_bucket_panics (b : Bolt) (key : Bytes)
    (h : kvGet b.db (parseAddress key).1 = none) :
    b.Get key = .panic ∧ b.Delete key = .panic := by
  rw [Bolt.Get_eq, Bolt.Delete_eq, h]
  exact ⟨rfl, rfl⟩

/-- On a key whose bucket exists and does not hold the item, `Delete` returns nil and
leaves the store unchanged, and `Get` returns the not-found error. -/
theorem absent_item_of_existing_bucket (b : Bolt) (key : Bytes) (items : Bucket)
    (hb : kvGet b.db (parseAddress key).1 = some items)
    (hi : kvGet items (parseAddress key).2 = none) :
    b.Delete key = .ret (b, none) ∧ b.Get key = .ret (none, some .keyNotFound) := by
  rw [Bolt.Get_eq, Bolt.Delete_eq, hb]
  simp only [hi, kvDel_of_absent items _ hi, kvReplace_same b.db _ items hb, and_true]

/-! ### C2: round trip -/

/-- C2 (as stated, refuted): on the store that `Init` gives for a new file, `Put` of the
empty key returns the engine's key-required error, and so does `Put` of `"a/"`,
whose item is empty. -/
theorem put_empty_item_rejected :
    Bolt.Init newFile [ascii "kv.db"] = .ret (.ok freshStore) ∧
    freshStore.Put [] [1] = .ret (freshStore, some .keyRequired) ∧
    freshStore.Put (ascii "a/") [1] =
      .ret ({ db := [(ascii "a", []), (defaultBucket, [])],
              buckets := [(ascii "a", true), (defaultBucket, true)] }, some .keyRequired) :=
  ⟨rfl, by decide, by decide⟩

/-- C2 (amended): for every key and value, in every state in which the parsed bucket of
the key is not a stale registry entry (registered but missing from the engine):
when the parsed item is non-empty and at most `MaxKeySize` bytes and the value at
most `MaxValueSize` bytes, `Put` returns no error and a `Get` of the same key right
afterwards returns no error and exactly the value; and `Put` returns the engine's
key-required error for an empty item, key-too-large for an item over `MaxKeySize`,
value-too-large for a value over `MaxValueSize`, and no error otherwise.  In every
state whatsoever, after a `Put` that returned no error, `Get` of the same key
returns no error and exactly the value. -/
theorem put_get_roundtrip (b : Bolt) (key value : Bytes) :
    ((b.bucketExists (parseAddress key).1 = true →
        (txBucket b.db (parseAddress key).1).isSome = true) →
      (parseAddress key).2 ≠ [] → (parseAddress key).2.length ≤ MaxKeySize →
      value.length ≤ MaxValueSize →
      ∃ b1, b.Put key value = .ret (b1, none) ∧ b1.Get key = .ret (some value, none)) ∧
    ((b.bucketExists (parseAddress key).1 = true →
        (txBucket b.db (parseAddress key).1).isSome = true) →
      ∃ b1, b.Put key value = .ret (b1,
        if (parseAddress key).2.length = 0 then some .keyRequired
        else if (parseAddress key).2.length > MaxKeySize then some .keyTooLarge
        else if value.length > MaxValueSize then some .valueTooLarge
        else none)) ∧
    (∀ b1, b.Put key value = .ret (b1, none) → b1.Get key = .ret (some value, none)) := by
  have hconv : (b.bucketExists (parseAddress key).1 = true →
        (txBucket b.db (parseAddress key).1).isSome = true) →
      (b.bucketExists (parseAddress key).1 = true →
        (kvGet b.db (parseAddress key).1).isSome = true) := by
    intro h e
    simpa [txBucket] using h e
  refine ⟨?_, ?_, ?_⟩
  · intro hown hitem hk hv
    obtain ⟨b1, h1⟩ := put_result b key value (hconv hown)
    have h0 : ¬ (parseAddress key).2.length = 0 := fun e => hitem (List.length_eq_zero.mp e)
    have h2 : ¬ (parseAddress key).2.length > MaxKeySize := by omega
    have h3 : ¬ value.length > MaxValueSize := by omega
    simp only [h0, h2, h3, if_false] at h1
    exact ⟨b1, h1, put_nil_get b b1 key value h1⟩
  · intro hown
    exact put_result b key value (hconv hown)
  · intro b1 h1
    exact put_nil_get b b1 key value h1

/-- Witness for C2 (amended): the key `"a/x"` in the store whose registry has the stale
entry `"c"`, the empty key in the fresh store, and a `Put` that returned nil. -/
theorem put_get_roundtrip_witness :
    (∃ b1, staleStore.Put (ascii "a/x") [1, 2] = .ret (b1, none) ∧
      b1.Get (ascii "a/x") = .ret (some [1, 2], none)) ∧
    (∃ b1, freshStore.Put [] [1] = .ret (b1, some .keyRequired)) ∧
    Bolt.Get { db := [(ascii "a", [(ascii "x", [1, 2])]), (defaultBucket, [])],
               buckets := [(ascii "a", true), (defaultBucket, true)] } (ascii "a/x")
      = .ret (some [1, 2], none) :=
  ⟨(put_get_roundtrip staleStore (ascii "a/x") [1, 2]).1 (by decide) (by decide) (by decide)
      (by decide),
   (put_get_roundtrip freshStore [] [1]).2.1 (by decide),
   (put_get_roundtrip freshStore (ascii "a/x") [1, 2]).2.2 _ (by decide)⟩

/-! ### C3, C4, C5: calls on a bucket that does not exist -/

/-- C3 (code evaluated at the failing input): on the store that `Init` gives for a new
file, `Get("nobucket/x")` panics, it does not return the not-found error; for a key
of the existing bucket `"default"` the not-found error is returned. -/
theorem get_missing_bucket_panics :
    Bolt.Init newFile [ascii "kv.db"] = .ret (.ok freshStore) ∧
    freshStore.Get (ascii "nobucket/x") = .panic ∧
    freshStore.Get (ascii "x") = .ret (none, some .keyNotFound) :=
  ⟨rfl, by decide, by decide⟩

/-- C4 (code evaluated at the failing input): on the store that `Init` gives for a new
file, `Delete("nobucket/x")` panics, it does not return nil; for an absent key of
the existing bucket `"default"` it returns nil and leaves the store unchanged. -/
theorem delete_missing_bucket_panics :
    Bolt.Init newFile [ascii "kv.db"] = .ret (.ok freshStore) ∧
    freshStore.Delete (ascii "nobucket/x") = .panic ∧
    freshStore.Delete (ascii "x") = .ret (freshStore, none) :=
  ⟨rfl, by decide, by decide⟩

/-- C5 (code evaluated at the failing input): from the store that `Init` gives for a new
file, `Put("c/x")`, `Put("c/y")` and `DeleteTree("c")` all return nil, and then
`Get("c/x")` and `Get("c/y")` both panic. -/
theorem get_after_deleteTree_panics :
    ∃ s1 s2 s3,
      freshStore.Put (ascii "c/x") [1] = .ret (s1, none) ∧
      s1.Put (ascii "c/y") [1] = .ret (s2, none) ∧
      s2.DeleteTree (ascii "c") = .ret (s3, none) ∧
      s3.Get (ascii "c/x") = .panic ∧
      s3.Get (ascii "c/y") = .panic :=
  ⟨{ db := [(ascii "c", [(ascii "x", [1])]), (defaultBucket, [])],
     buckets := [(ascii "c", true), (defaultBucket, true)] },
   { db := [(ascii "c", [(ascii "x", [1]), (ascii "y", [1])]), (defaultBucket, [])],
     buckets := [(ascii "c", true), (defaultBucket, true)] },
   { db := [(defaultBucket, [])],
     buckets := [(ascii "c", true), (defaultBucket, true)] },
   by decide, by decide, by decide, by decide, by decide⟩

/-! ### C6: the registry after `Init` -/

/-- C6 (code evaluated at the failing input): `Init` on a file that already holds the
bucket `"a"` returns nil, `Buckets()` then lists `"a"` and `"default"`, and the
registry knows `"default"` only. -/
theorem init_registry_misses_existing_bucket :
    ∃ b, Bolt.Init oldFile [ascii "kv.db"] = .ret (.ok b) ∧
      b.Buckets = .ret ([ascii "a", defaultBucket], none) ∧
      b.bucketExists (ascii "a") = false ∧
      b.bucketExists defaultBucket = true :=
  ⟨{ db := [(ascii "a", []), (defaultBucket, [])], buckets := [(defaultBucket, true)] },
   rfl, by decide, by decide, by decide⟩

/-! ### C7: `DeleteTree` of a missing bucket -/

/-- C7 (as stated, refuted): on the store that `Init` gives for a new file,
`DeleteTree("nobucket")` returns the engine's bucket-not-found error. -/
theorem deleteTree_missing_bucket_errors :
    Bolt.Init newFile [ascii "kv.db"] = .ret (.ok freshStore) ∧
    freshStore.DeleteTree (ascii "nobucket") = .ret (freshStore, some .bucketNotFound) :=
  ⟨rfl, by decide⟩

/-- C7 (amended): `DeleteTree` of a name that has no bucket in the engine returns an
error (bucket-not-found for every non-empty name) and leaves the store unchanged;
hence after a `DeleteTree(c)` that returned nil, a second `DeleteTree(c)` returns
the error and changes nothing. -/
theorem deleteTree_missing (b : Bolt) (name : Bytes) :
    (txBucket b.db name = none →
      ∃ e, b.DeleteTree name = .ret (b, some e) ∧ (name ≠ [] → e = .bucketNotFound)) ∧
    (∀ b1, b.DeleteTree name = .ret (b1, none) →
      ∃ e, b1.DeleteTree name = .ret (b1, some e) ∧ (name ≠ [] → e = .bucketNotFound)) := by
  have key : ∀ s : Bolt, kvGet s.db name = none →
      ∃ e, s.DeleteTree name = .ret (s, some e) ∧ (name ≠ [] → e = .bucketNotFound) := by
    intro s hs
    refine ⟨_, by rw [Bolt.DeleteTree_eq, hs], ?_⟩
    intro hn
    simp [hn]
  constructor
  · intro h
    apply key
    cases hg : kvGet b.db name with
    | none => rfl
    | some x => simp [txBucket, hg] at h
  · intro b1 h
    apply key
    rw [Bolt.DeleteTree_eq] at h
    cases hg : kvGet b.db name with
    | none => simp [hg] at h
    | some x =>
      simp only [hg, Result.ret.injEq, Prod.mk.injEq, and_true] at h
      rw [← h]
      exact kvGet_kvDel_self b.db name

/-- Witness for C7 (amended): `DeleteTree("c")` on the fresh store, and a second
`DeleteTree("c")` after one that removed an existing bucket `"c"`. -/
theorem deleteTree_missing_witness :
    (∃ e, freshStore.DeleteTree (ascii "c") = .ret (freshStore, some e) ∧
      (ascii "c" ≠ [] → e = .bucketNotFound)) ∧
    (∃ e, freshStore.DeleteTree (ascii "c") = .ret (freshStore, some e) ∧
      (ascii "c" ≠ [] → e = .bucketNotFound)) :=
  ⟨(deleteTree_missing freshStore (ascii "c")).1 (by decide),
   (deleteTree_missing
      { db := [(ascii "c", []), (defaultBucket, [])], buckets := [(defaultBucket, true)] }
      (ascii "c")).2 freshStore (by decide)⟩

/-! ### C8: stale registry -/

/-- C8 (code evaluated at the failing input): the state after `Init` on a new file,
`Put("c/x")` and `DeleteTree("c")` is reachable, its registry still lists `"c"`,
the engine has no bucket `"c"`, and `Put("c/x")` panics there. -/
theorem put_with_stale_registry_panics :
    ∃ b, Reachable newFile b ∧
      b.bucketExists (ascii "c") = true ∧
      txBucket b.db (ascii "c") = none ∧
      b.Put (ascii "c/x") [1] = .panic := by
  refine ⟨{ db := [(defaultBucket, [])],
            buckets := [(ascii "c", true), (defaultBucket, true)] }, ?_, by decide, by decide,
          by decide⟩
  have h0 : Reachable newFile freshStore := Reachable.init [ascii "kv.db"] freshStore rfl
  have h1 := Reachable.put freshStore
    { db := [(ascii "c", [(ascii "x", [1])]), (defaultBucket, [])],
      buckets := [(ascii "c", true), (defaultBucket, true)] }
    (ascii "c/x") [1] none h0 (by decide)
  exact Reachable.deleteTree _ _ (ascii "c") none h1 (by decide)

/-! ### C9: container isolation -/

/-- After two writes that both returned nil, to keys that parse differently, both reads
return what was written under their own key. -/
theorem two_puts_aux (s s1 s2 : Bolt) (k1 k2 v1 v2 : Bytes)
    (hne : parseAddress k2 ≠ parseAddress k1)
    (hp1 : s.Put k1 v1 = .ret (s1, none)) (hp2 : s1.Put k2 v2 = .ret (s2, none)) :
    s2.Get k1 = .ret (some v1, none) ∧ s2.Get k2 = .ret (some v2, none) := by
  have hg1 := put_nil_get s s1 k1 v1 hp1
  refine ⟨?_, put_nil_get s1 s2 k2 v2 hp2⟩
  rw [put_frame s1 s2 k2 v2 k1 none hp2 hne (by rw [hg1]; simp), hg1]

/-- Two writes in a row both return nil when neither bucket is a stale registry entry
and the items and values are within the engine limits. -/
theorem two_puts_ok (s : Bolt) (k1 k2 v1 v2 : Bytes)
    (h1 : s.bucketExists (parseAddress k1).1 = true →
      (kvGet s.db (parseAddress k1).1).isSome = true)
    (h2 : s.bucketExists (parseAddress k2).1 = true →
      (kvGet s.db (parseAddress k2).1).isSome = true)
    (hi1 : (parseAddress k1).2 ≠ []) (hk1 : (parseAddress k1).2.length ≤ MaxKeySize)
    (hi2 : (parseAddress k2).2 ≠ []) (hk2 : (parseAddress k2).2.length ≤ MaxKeySize)
    (hv1 : v1.length ≤ MaxValueSize) (hv2 : v2.length ≤ MaxValueSize) :
    ∃ s1 s2, s.Put k1 v1 = .ret (s1, none) ∧ s1.Put k2 v2 = .ret (s2, none) := by
  obtain ⟨s1, hp1⟩ := put_result s k1 v1 h1
  have a0 : ¬ (parseAddress k1).2.length = 0 := fun e => hi1 (List.length_eq_zero.mp e)
  have a1 : ¬ (parseAddress k1).2.length > MaxKeySize := by omega
  have a2 : ¬ v1.length > MaxValueSize := by omega
  simp only [a0, a1, a2, if_false] at hp1
  obtain ⟨s2, hp2⟩ := put_result s1 k2 v2 (put_keeps_fresh s s1 k1 v1 _ none hp1 h2)
  have c0 : ¬ (parseAddress k2).2.length = 0 := fun e => hi2 (List.length_eq_zero.mp e)
  have c1 : ¬ (parseAddress k2).2.length > MaxKeySize := by omega
  have c2 : ¬ v2.length > MaxValueSize := by omega
  simp only [c0, c1, c2, if_false] at hp2
  exact ⟨s1, s2, hp1, hp2⟩

/-- C9 (as stated, refuted): with the item `x` of 32769 bytes `'x'`, on the store that
`Init` gives for a new file, `Put("a/" ++ x)` and `Put("b/" ++ x)` return the
engine's key-too-large error and `Get("a/" ++ x)` returns the not-found error, not
the value written. -/
theorem isolation_fails_for_oversized_item :
    freshStore.Put (ascii "a" ++ slash :: List.replicate 32769 120) [1] =
      .ret ({ db := [(ascii "a", []), (defaultBucket, [])],
              buckets := [(ascii "a", true), (defaultBucket, true)] }, some .keyTooLarge) ∧
    Bolt.Put { db := [(ascii "a", []), (defaultBucket, [])],
               buckets := [(ascii "a", true), (defaultBucket, true)] }
        (ascii "b" ++ slash :: List.replicate 32769 120) [2] =
      .ret ({ db := [(ascii "a", []), (ascii "b", []), (defaultBucket, [])],
              buckets := [(ascii "a", true), (ascii "b", true), (defaultBucket, true)] },
            some .keyTooLarge) ∧
    Bolt.Get { db := [(ascii "a", []), (ascii "b", []), (defaultBucket, [])],
               buckets := [(ascii "a", true), (ascii "b", true), (defaultBucket, true)] }
        (ascii "a" ++ slash :: List.replicate 32769 120) =
      .ret (none, some .keyNotFound) := by
  have hx : slash ∉ List.replicate 32769 (120 : UInt8) := by
    intro h
    have := List.eq_of_mem_replicate h
    revert this
    decide
  have hpa := parseAddress_join (ascii "a") (List.replicate 32769 120) (by decide) hx
  have hpb := parseAddress_join (ascii "b") (List.replicate 32769 120) (by decide) hx
  have hea : ensured freshStore (ascii "a") =
      { db := [(ascii "a", []), (defaultBucket, [])],
        buckets := [(ascii "a", true), (defaultBucket, true)] } := by decide
  have heb : ensured
        { db := [(ascii "a", []), (defaultBucket, [])],
          buckets := [(ascii "a", true), (defaultBucket, true)] } (ascii "b") =
      { db := [(ascii "a", []), (ascii "b", []), (defaultBucket, [])],
        buckets := [(ascii "a", true), (ascii "b", true), (defaultBucket, true)] } := by decide
  have hga : kvGet ([(ascii "a", []), (defaultBucket, [])] : DB) (ascii "a") = some [] := by
    decide
  have hgb : kvGet ([(ascii "a", []), (ascii "b", []), (defaultBucket, [])] : DB) (ascii "b")
      = some [] := by decide
  have hgc : kvGet ([(ascii "a", []), (ascii "b", []), (defaultBucket, [])] : DB) (ascii "a")
      = some [] := by decide
  refine ⟨?_, ?_, ?_⟩
  · rw [Bolt.Put_eq, hpa]
    simp only [hea, hga, List.length_replicate, MaxKeySize]
    rfl
  · rw [Bolt.Put_eq, hpb]
    simp only [heb, hgb, List.length_replicate, MaxKeySize]
    rfl
  · rw [Bolt.Get_eq, hpa]
    simp only [hgc]
    rfl

/-- C9 (amended): in every state, for different non-empty bucket names `a` and `b` and an
item `x` without `'/'`: whenever `Put(a/x, v1)` and `Put(b/x, v2)`, in either order,
both return nil, afterwards `Get(a/x)` returns `v1` and `Get(b/x)` returns `v2`;
both do return nil, in either order, when `x` is non-empty and at most `MaxKeySize`
bytes, the values are at most `MaxValueSize` bytes and neither `a` nor `b` is a
stale registry entry (registered but missing from the engine); and a `Put` that
returns leaves the result of `Get` on any key that `parseAddress` sends to a
different (bucket, item) pair unchanged, when that `Get` did not panic before. -/
theorem container_isolation (s : Bolt) (a b x v1 v2 : Bytes)
    (ha : a ≠ []) (hb : b ≠ []) (hab : a ≠ b) (hxs : slash ∉ x) :
    (∀ s1 s2, s.Put (a ++ slash :: x) v1 = .ret (s1, none) →
      s1.Put (b ++ slash :: x) v2 = .ret (s2, none) →
      s2.Get (a ++ slash :: x) = .ret (some v1, none) ∧
      s2.Get (b ++ slash :: x) = .ret (some v2, none)) ∧
    (∀ s1 s2, s.Put (b ++ slash :: x) v2 = .ret (s1, none) →
      s1.Put (a ++ slash :: x) v1 = .ret (s2, none) →
      s2.Get (a ++ slash :: x) = .ret (some v1, none) ∧
      s2.Get (b ++ slash :: x) = .ret (some v2, none)) ∧
    (x ≠ [] → x.length ≤ MaxKeySize → v1.length ≤ MaxValueSize → v2.length ≤ MaxValueSize →
      (s.bucketExists a = true → (txBucket s.db a).isSome = true) →
      (s.bucketExists b = true → (txBucket s.db b).isSome = true) →
      (∃ s1 s2, s.Put (a ++ slash :: x) v1 = .ret (s1, none) ∧
        s1.Put (b ++ slash :: x) v2 = .ret (s2, none)) ∧
      (∃ s1 s2, s.Put (b ++ slash :: x) v2 = .ret (s1, none) ∧
        s1.Put (a ++ slash :: x) v1 = .ret (s2, none))) ∧
    (∀ (t t1 : Bolt) (k1 v k2 : Bytes) (err : Option BoltError),
      t.Put k1 v = .ret (t1, err) → parseAddress k1 ≠ parseAddress k2 →
      t.Get k2 ≠ .panic → t1.Get k2 = t.Get k2) := by
  have hpa := parseAddress_join a x ha hxs
  have hpb := parseAddress_join b x hb hxs
  have hne : parseAddress (b ++ slash :: x) ≠ parseAddress (a ++ slash :: x) := by
    rw [hpa, hpb]
    intro e
    exact hab (congrArg Prod.fst e).symm
  refine ⟨?_, ?_, ?_, ?_⟩
  · intro s1 s2 h1 h2
    exact two_puts_aux s s1 s2 _ _ v1 v2 hne h1 h2
  · intro s1 s2 h1 h2
    exact (two_puts_aux s s1 s2 _ _ v2 v1 hne.symm h1 h2).symm
  · intro hx hxl hv1 hv2 hfa hfb
    have hka : s.bucketExists (parseAddress (a ++ slash :: x)).1 = true →
        (kvGet s.db (parseAddress (a ++ slash :: x)).1).isSome = true := by
      rw [hpa]
      intro e
      simpa [txBucket] using hfa e
    have hkb : s.bucketExists (parseAddress (b ++ slash :: x)).1 = true →
        (kvGet s.db (parseAddress (b ++ slash :: x)).1).isSome = true := by
      rw [hpb]
      intro e
      simpa [txBucket] using hfb e
    have hia : (parseAddress (a ++ slash :: x)).2 = x := by rw [hpa]
    have hib : (parseAddress (b ++ slash :: x)).2 = x := by rw [hpb]
    exact ⟨two_puts_ok s _ _ v1 v2 hka hkb (by rw [hia]; exact hx) (by rw [hia]; exact hxl)
        (by rw [hib]; exact hx) (by rw [hib]; exact hxl) hv1 hv2,
      two_puts_ok s _ _ v2 v1 hkb hka (by rw [hib]; exact hx) (by rw [hib]; exact hxl)
        (by rw [hia]; exact hx) (by rw [hia]; exact hxl) hv2 hv1⟩
  · intro t t1 k1 v k2 err hput hk hget
    exact put_frame t t1 k1 v k2 err hput hk hget

/-- Witness for C9 (amended): buckets `"a"` and `"b"` and item `"x"` in the store whose
registry has the stale entry `"c"`: both writes return nil, and the reads after
them return the values written. -/
theorem container_isolation_witness :
    ((∃ s1 s2, staleStore.Put (ascii "a" ++ slash :: ascii "x") [1] = .ret (s1, none) ∧
        s1.Put (ascii "b" ++ slash :: ascii "x") [2] = .ret (s2, none)) ∧
      (∃ s1 s2, staleStore.Put (ascii "b" ++ slash :: ascii "x") [2] = .ret (s1, none) ∧
        s1.Put (ascii "a" ++ slash :: ascii "x") [1] = .ret (s2, none))) ∧
    (Bolt.Get { db := [(ascii "a", [(ascii "x", [1])]), (ascii "b", [(ascii "x", [2])]),
                       (defaultBucket, [])],
                buckets := [(ascii "a", true), (ascii "b", true), (ascii "c", true),
                            (defaultBucket, true)] } (ascii "a" ++ slash :: ascii "x")
        = .ret (some [1], none) ∧
      Bolt.Get { db := [(ascii "a", [(ascii "x", [1])]), (ascii "b", [(ascii "x", [2])]),
                        (defaultBucket, [])],
                 buckets := [(ascii "a", true), (ascii "b", true), (ascii "c", true),
                             (defaultBucket, true)] } (ascii "b" ++ slash :: ascii "x")
        = .ret (some [2], none)) :=
  ⟨(container_isolation staleStore (ascii "a") (ascii "b") (ascii "x") [1] [2]
      (by decide) (by decide) (by decide) (by decide)).2.2.1
      (by decide) (by decide) (by decide) (by decide) (by decide) (by decide),
   (container_isolation staleStore (ascii "a") (ascii "b") (ascii "x") [1] [2]
      (by decide) (by decide) (by decide) (by decide)).1
      { db := [(ascii "a", [(ascii "x", [1])]), (defaultBucket, [])],
        buckets := [(ascii "a", true), (ascii "c", true), (defaultBucket, true)] }
      _ (by decide) (by decide)⟩

end Kv

namespace Jsonlog

/-! ### C10: the counters of `StdLogger` -/

/-- C10 (code evaluated at the failing input): after `Init` with debug off and one
`Debug` call, `Stats()` reports one debug message although no line reached the
writer; with debug on, one `Info`, one `Debug` and one `Error` give `(1, 1, 1, 0)`
and three lines. -/
theorem stats_counts_discarded_debug :
    ((StdLogger.Init "appName" false true).Debug "m").Stats = (1, 0, 0, 0) ∧
    ((StdLogger.Init "appName" false true).Debug "m").writtenCount .debug = 0 ∧
    ((((StdLogger.Init "appName" true true).Info "info1").Debug "info2").Error "info3").Stats
      = (1, 1, 1, 0) ∧
    ((((StdLogger.Init "appName" true true).Info "info1").Debug "info2").Error "info3").written
      = [(.info, "info1"), (.debug, "info2"), (.error, "info3")] := by
  refine ⟨?_, ?_, ?_, ?_⟩ <;> decide

end Jsonlog
